import Mathlib

/-!
Shallow embedding of the SublimeUberSettings plugin (SublimeUberSettings.py).

The embedding models:
 - Python dicts with string keys in insertion order (settings mappings);
 - absolute filesystem paths as lists of components (the root `/` is `[]`),
   with the empty string path as a separate constructor, because the source's
   `parent_dir` returns the empty string for the root directory and that empty
   string then flows back into path operations;
 - the filesystem as a finite association of paths to file states;
 - Python exceptions as the error side of `Except`:
     `os.path.join(None, os.pardir)` in `parent_dir` raises `TypeError` when
     `view.file_name()` is `None`, and `open()` raises `OSError`
     (e.g. `PermissionError`) for a file that exists but cannot be opened —
     in `file_settings` the `try` block starts only after `open()` succeeded,
     so that error propagates;
 - the plugin's module state (`configured_views` plus each view's live
   settings store) as an explicit state record.

`os.path.abspath` depends on the process working directory, so the embedding
threads an explicit `cwd` (the components of the absolute current working
directory) through the path functions.
-/

set_option autoImplicit false

namespace SublimeUberSettings

/-- A JSON-compatible value, as produced by `sublime.decode_value`. -/
inductive JVal where
  | null
  | bool (b : Bool)
  | num (n : Int)
  | str (s : String)
  | arr (elems : List JVal)
  | obj (fields : List (String × JVal))

/-- A Python dict with string keys, entries kept in insertion order. -/
abbrev SettingsMap := List (String × JVal)

/-- Python dict lookup `d[k]` / `k in d`: the entry for `k` (keys are unique in
any dict the interpreter builds, so the first match is the entry). -/
def dictGet : SettingsMap → String → Option JVal
  | [], _ => none
  | (k, v) :: rest, key => if k = key then some v else dictGet rest key

/-- Python dict assignment `d[k] = v`: replace the existing entry in place
(keeping its position) or append a fresh entry at the end. -/
def dictSet : SettingsMap → String → JVal → SettingsMap
  | [], key, v => [(key, v)]
  | (k, w) :: rest, key, v =>
    if k = key then (key, v) :: rest else (k, w) :: dictSet rest key v

/-- Python `base.update(overlay)`: assign every entry of `overlay`, in order,
into `base`. Entries of `overlay` win for shared keys. -/
def dictUpdate (base overlay : SettingsMap) : SettingsMap :=
  overlay.foldl (fun acc p => dictSet acc p.1 p.2) base

/-- Lookup that takes the last occurrence of a key (what repeated
`d[k] = v` assignments leave behind for a list with duplicate keys). -/
def lookupLast (d : SettingsMap) (key : String) : Option JVal :=
  dictGet d.reverse key

/-- A mapping has no duplicate keys (true of every real Python dict). -/
def NodupKeys (d : SettingsMap) : Prop := (d.map Prod.fst).Nodup

instance (d : SettingsMap) : Decidable (NodupKeys d) :=
  inferInstanceAs (Decidable (List.Nodup _))

/-- First-some choice on optional values (`Option.or`, kept local so all
merge reasoning is over definitions of this file). -/
def orO : Option JVal → Option JVal → Option JVal
  | some v, _ => some v
  | none, b => b

/-- A path value flowing through the plugin: either the empty string (what
`parent_dir` returns for the root) or an absolute normalized path given by its
components — `abs []` is the root `/`, `abs [a, b]` is `/a/b`. -/
inductive UPath where
  | empty
  | abs (cs : List String)
deriving DecidableEq

/-- `parent_dir(path)` from the source:
`parent_path = os.path.abspath(os.path.join(path, os.pardir))`, returning `""`
when `parent_path == path`.
 - on the empty string, `os.path.join("", "..") = ".."` and `abspath` resolves
   it against the working directory, giving the parent of `cwd` (never equal
   to the empty string, so it is returned);
 - on the root `/`, `abspath("/..") = "/"` equals the input, so `""`;
 - otherwise the last component is dropped. -/
def parent_dir (cwd : List String) : UPath → UPath
  | .empty => .abs cwd.dropLast
  | .abs [] => .empty
  | .abs (c :: cs) => .abs ((c :: cs).dropLast)

/-- The string concatenation `settings_dir + "/" + name` from the source,
read back as an absolute path:
 - `"" + "/" + name = "/name"`;
 - `"/" + "/" + name = "//name"`, which the operating system resolves to
   `/name` (a doubled leading slash names the same file on Linux);
 - `"/a/b" + "/" + name = "/a/b/name"`. -/
def joinFile : UPath → String → List String
  | .empty, name => [name]
  | .abs cs, name => cs ++ [name]

/-- Ancestor chains of reversed component lists (innermost component first). -/
def ancestorsAux : List String → List (List String)
  | [] => [[]]
  | c :: tl => (c :: tl) :: ancestorsAux tl

/-- The chain `cs, dropLast cs, …, []` of a directory and all its ancestors,
ending at the root. -/
def ancestors (cs : List String) : List (List String) :=
  (ancestorsAux cs.reverse).map List.reverse

/-- The directories visited by the `while True` loop of `view_settings`,
starting from a given `settings_dir`. The loop body always runs for the
current directory; the loop stops once `parent_dir` returns the empty string.
Starting from the empty string, the loop body runs for the empty string and
then continues from `parent_dir("")`, the parent of the working directory. -/
def walkFrom (cwd : List String) : UPath → List UPath
  | .empty => .empty :: (ancestors cwd.dropLast).map .abs
  | .abs cs => (ancestors cs).map .abs

/-- Iterated `parent_dir`. -/
def parentIter (cwd : List String) : Nat → UPath → UPath
  | 0, d => d
  | n + 1, d => parentIter cwd n (parent_dir cwd d)

/-- The state of one path in the filesystem, as observed by `file_settings`:

 - `absent`: `os.path.isfile` is false;
 - `unreadable`: `os.path.isfile` is true but `open()` raises an `OSError`
   (for example `PermissionError` for an unreadable file) — the `try` block of
   `file_settings` starts only after `open()` has succeeded;
 - `invalid`: the file opens and reads but `sublime.decode_value` (or the
   UTF-8 decode during `read()`) raises — caught by the `except` clause;
 - `valid m`: decoding succeeds with the dict `m`. -/
inductive FileState where
  | absent
  | unreadable
  | invalid
  | valid (m : SettingsMap)

/-- A filesystem: finitely many paths with a known state; all others absent. -/
abbrev FS := List (List String × FileState)

/-- Look up the state of a path. -/
def fsStat : FS → List String → FileState
  | [], _ => .absent
  | (q, st) :: rest, p => if q = p then st else fsStat rest p

/-- The Python exceptions the embedded code can raise. -/
inductive PyError where
  | typeError
  | ioError
deriving DecidableEq

/-- `file_settings(file)` from the source:
return `{}` when the path is not a regular file; otherwise `open()` it (an
`OSError` here propagates — the `try` starts after `open()`), then read and
decode inside `try`, returning `{}` on any decode failure. -/
def file_settings (fs : FS) (file : List String) : Except PyError SettingsMap :=
  match fsStat fs file with
  | .absent => .ok []
  | .unreadable => .error .ioError
  | .invalid => .ok []
  | .valid m => .ok m

/-- The candidate settings files probed in one directory (source lines 67-70):
`settings_dir + "/" + syntax_name + ".sublime-settings"` and
`settings_dir + "/Preferences.sublime-settings"`. -/
def settings_files (settings_dir : UPath) (synName : String) : List (List String) :=
  [joinFile settings_dir (synName ++ ".sublime-settings"),
   joinFile settings_dir ("Preferences.sublime-settings")]

/-- One iteration of the `while True` loop body in `view_settings`: the inner
`for` loop over `settings_files`, unrolled to its two iterations. Each
iteration runs `dir_settings = file_settings(f); dir_settings.update(settings);
settings = dir_settings`, i.e. `settings := dictUpdate (file_settings f)
settings`: the already accumulated (nearer) settings win. -/
def processDir (fs : FS) (synName : String) (d : UPath) (s : SettingsMap) :
    Except PyError SettingsMap :=
  match file_settings fs (joinFile d (synName ++ ".sublime-settings")) with
  | .error e => .error e
  | .ok m1 =>
    match file_settings fs (joinFile d ("Preferences.sublime-settings")) with
    | .error e => .error e
    | .ok m2 => .ok (dictUpdate m2 (dictUpdate m1 s))

/-- The `while True` loop of `view_settings`, iterated over the directory
list computed by `walkFrom`. An exception from `file_settings` propagates,
aborting the remaining iterations. -/
def viewLoop (fs : FS) (synName : String) : List UPath → SettingsMap →
    Except PyError SettingsMap
  | [], s => .ok s
  | d :: rest, s =>
    match processDir fs synName d s with
    | .error e => .error e
    | .ok s' => viewLoop fs synName rest s'

/-- `os.path.basename` on POSIX: the characters after the last `/`. -/
def strBasename (s : String) : String :=
  String.mk ((s.toList.reverse.takeWhile (fun c => c ≠ '/')).reverse)

/-- Index of the last occurrence of a character. -/
def lastIdxOf (c : Char) : List Char → Option Nat
  | [] => none
  | x :: xs =>
    match lastIdxOf c xs with
    | some i => some (i + 1)
    | none => if x = c then some 0 else none

/-- `os.path.splitext(base)[0]` for a basename: drop the extension starting at
the last dot, unless every character before that dot is itself a dot (so a
leading-dot name such as `.bashrc` keeps its dot). -/
def splitextRoot (s : String) : String :=
  match lastIdxOf '.' s.toList with
  | none => s
  | some i =>
    if (s.toList.take i).all (fun c => c = '.') then s
    else String.mk (s.toList.take i)

/-- A Sublime Text view, as far as the plugin reads it:
its stable id, the value of `view.settings().get("syntax")`, and
`view.file_name()` (`none` models Python `None` for an unsaved buffer;
otherwise the components of the absolute file path). -/
structure View where
  id : Nat
  synSetting : String
  fileName : Option (List String)

/-- `syntax_name` as computed in `view_settings`:
`os.path.splitext(os.path.basename(syntax_file))[0]`. -/
def synNameOf (v : View) : String :=
  splitextRoot (strBasename v.synSetting)

/-- `view_settings(view)` from the source. With `view.file_name()` equal to
`None`, `os.path.join(None, os.pardir)` inside `parent_dir` raises a
`TypeError`. Otherwise the loop starts at `parent_dir(view.file_name())`
(which is the empty string when the file is itself the root) and the loop body
runs for every directory of `walkFrom`. -/
def view_settings (fs : FS) (cwd : List String) (v : View) :
    Except PyError SettingsMap :=
  match v.fileName with
  | none => .error .typeError
  | some f =>
    viewLoop fs (synNameOf v) (walkFrom cwd (parent_dir cwd (.abs f))) []

/-- The module state of the plugin: the `configured_views` list and every
view's live settings store (keyed by view id). -/
structure AppState where
  configured_views : List Nat
  stores : Nat → SettingsMap

/-- The `for name, value in ...items(): view.settings().set(name, value)` loop:
write every resolved entry, in order, into the view's settings store. -/
def writeItems (store items : SettingsMap) : SettingsMap :=
  items.foldl (fun acc p => dictSet acc p.1 p.2) store

/-- `apply_settings(view)` from the source: return immediately when the view
id is already in `configured_views`; otherwise resolve `view_settings` (an
exception propagates, leaving the state unchanged), write every resolved
entry into the view's store, and append the view id to `configured_views`. -/
def apply_settings (fs : FS) (cwd : List String) (st : AppState) (v : View) :
    Except PyError AppState :=
  if v.id ∈ st.configured_views then .ok st
  else
    match view_settings fs cwd v with
    | .error e => .error e
    | .ok s =>
      .ok { configured_views := st.configured_views ++ [v.id],
            stores := fun i =>
              if i = v.id then writeItems (st.stores i) s else st.stores i }

/-- Python `list.remove` wrapped in `try ... except ValueError: pass`:
remove the first occurrence if present, otherwise leave the list unchanged. -/
def removeFirst : List Nat → Nat → List Nat
  | [], _ => []
  | x :: xs, a => if x = a then xs else x :: removeFirst xs a

/-- `SublimeUberSettingsListener.on_close`: drop the view id from
`configured_views`, silently doing nothing when it is absent. -/
def on_close (st : AppState) (viewId : Nat) : AppState :=
  { st with configured_views := removeFirst st.configured_views viewId }

/-- Module states reachable from plugin start: `configured_views` is empty and
no store has been written by the plugin yet (stores start with whatever the
editor put there; for the registry invariant only `configured_views` matters,
so the initial stores are fixed to empty for definiteness), and each lifecycle
event is a successful `apply_settings` (`on_load`, `on_post_save`,
`plugin_loaded`) or an `on_close`. A failing `apply_settings` leaves the state
unchanged, so it does not add reachable states. -/
inductive Reachable : AppState → Prop where
  | init : Reachable { configured_views := [], stores := fun _ => [] }
  | applyEvent (fs : FS) (cwd : List String) (v : View) (st st' : AppState) :
      Reachable st → apply_settings fs cwd st v = .ok st' → Reachable st'
  | closeEvent (st : AppState) (i : Nat) :
      Reachable st → Reachable (on_close st i)

/-- Modelled from the spec: the candidate settings file names the
specification prescribes as bit-exact, section 6 — `<SyntaxBaseName>.settings`
and `Preferences.settings`, directly inside the candidate directory. Stated
for comparison with `settings_files`, which is read off the source. -/
def settings_files_spec (settings_dir : UPath) (synBase : String) : List (List String) :=
  [joinFile settings_dir (synBase ++ ".settings"),
   joinFile settings_dir ("Preferences.settings")]

/-- The mapping a candidate file contributes to the merge when no exception
interrupts the resolve: the decoded dict for a valid file, `{}` otherwise. -/
def fileMapP (fs : FS) (p : List String) : SettingsMap :=
  match fsStat fs p with
  | .valid m => m
  | _ => []

/-- A decoded file is a real Python dict: its keys are unique. -/
def fileStateWF : FileState → Prop
  | .valid m => NodupKeys m
  | _ => True

instance (st : FileState) : Decidable (fileStateWF st) :=
  match st with
  | .absent => isTrue trivial
  | .unreadable => isTrue trivial
  | .invalid => isTrue trivial
  | .valid m => inferInstanceAs (Decidable (NodupKeys m))

/-- Every decoded file of the filesystem is a real Python dict. This holds of
anything `sublime.decode_value` can return (a dict never holds a key twice);
it is a hypothesis because the embedding stores raw association lists. -/
def fsWellFormed (fs : FS) : Prop := ∀ e ∈ fs, fileStateWF e.2

instance (fs : FS) : Decidable (fsWellFormed fs) :=
  inferInstanceAs (Decidable (∀ e ∈ fs, fileStateWF e.2))

/-- The value a single directory contributes for a key: the syntax-specific
candidate first, the generic `Preferences` candidate second. -/
def dirLayerGet (fs : FS) (synName : String) (d : UPath) (k : String) :
    Option JVal :=
  orO (dictGet (fileMapP fs (joinFile d (synName ++ ".sublime-settings"))) k)
      (dictGet (fileMapP fs (joinFile d ("Preferences.sublime-settings"))) k)

/-- The value a nearest-first list of directory layers yields for a key: the
first directory that defines the key wins. -/
def layersGet (fs : FS) (synName : String) : List UPath → String → Option JVal
  | [], _ => none
  | d :: rest, k => orO (dirLayerGet fs synName d k) (layersGet fs synName rest k)

/-! ## Dictionary algebra -/

theorem orO_assoc (a b c : Option JVal) : orO (orO a b) c = orO a (orO b c) := by
  cases a <;> rfl

theorem orO_none_right (a : Option JVal) : orO a none = a := by
  cases a <;> rfl

theorem dictGet_append (l1 l2 : SettingsMap) (k : String) :
    dictGet (l1 ++ l2) k = orO (dictGet l1 k) (dictGet l2 k) := by
  induction l1 with
  | nil => rfl
  | cons p rest ih =>
    obtain ⟨k', v⟩ := p
    by_cases h : k' = k <;> simp [dictGet, h, ih, orO]

theorem dictGet_dictSet (d : SettingsMap) (k0 : String) (v : JVal) (k : String) :
    dictGet (dictSet d k0 v) k = if k0 = k then some v else dictGet d k := by
  induction d with
  | nil => simp [dictSet, dictGet]
  | cons p rest ih =>
    obtain ⟨k', v'⟩ := p
    by_cases h : k' = k0
    · subst h
      by_cases hk : k' = k <;> simp [dictSet, dictGet, hk]
    · by_cases hk : k' = k
      · subst hk
        have : ¬ k0 = k' := fun he => h he.symm
        simp [dictSet, dictGet, h, this]
      · simp [dictSet, dictGet, h, hk, ih]

theorem dictGet_eq_none_of_not_mem_keys (d : SettingsMap) (k : String)
    (h : k ∉ d.map Prod.fst) : dictGet d k = none := by
  induction d with
  | nil => rfl
  | cons p rest ih =>
    obtain ⟨k', v⟩ := p
    simp only [List.map_cons, List.mem_cons] at h
    push_neg at h
    have hne : ¬ k' = k := fun he => h.1 (he ▸ rfl)
    simp [dictGet, hne, ih h.2]

theorem mem_keys_dictSet (d : SettingsMap) (k0 : String) (v : JVal) (a : String)
    (h : a ∈ (dictSet d k0 v).map Prod.fst) : a ∈ d.map Prod.fst ∨ a = k0 := by
  induction d with
  | nil =>
    simp [dictSet] at h
    exact Or.inr h
  | cons p rest ih =>
    obtain ⟨k', v'⟩ := p
    by_cases he : k' = k0
    · subst he
      have hset : dictSet ((k', v') :: rest) k' v = (k', v) :: rest := by
        simp [dictSet]
      rw [hset] at h
      simp only [List.map_cons, List.mem_cons] at h ⊢
      rcases h with h | h
      · exact Or.inr h
      · exact Or.inl (Or.inr h)
    · have hset : dictSet ((k', v') :: rest) k0 v = (k', v') :: dictSet rest k0 v := by
        simp [dictSet, he]
      rw [hset] at h
      simp only [List.map_cons, List.mem_cons] at h ⊢
      rcases h with h | h
      · exact Or.inl (Or.inl h)
      · rcases ih h with h2 | h2
        · exact Or.inl (Or.inr h2)
        · exact Or.inr h2

theorem NodupKeys_dictSet (d : SettingsMap) (k0 : String) (v : JVal)
    (h : NodupKeys d) : NodupKeys (dictSet d k0 v) := by
  induction d with
  | nil => simp [dictSet, NodupKeys]
  | cons p rest ih =>
    obtain ⟨k', v'⟩ := p
    unfold NodupKeys at h
    simp only [List.map_cons, List.nodup_cons] at h
    by_cases he : k' = k0
    · subst he
      have hset : dictSet ((k', v') :: rest) k' v = (k', v) :: rest := by
        simp [dictSet]
      rw [hset]
      unfold NodupKeys
      simp only [List.map_cons, List.nodup_cons]
      exact h
    · have hset : dictSet ((k', v') :: rest) k0 v = (k', v') :: dictSet rest k0 v := by
        simp [dictSet, he]
      rw [hset]
      unfold NodupKeys
      simp only [List.map_cons, List.nodup_cons]
      refine ⟨fun hmem => ?_, ih h.2⟩
      rcases mem_keys_dictSet rest k0 v k' hmem with h2 | h2
      · exact h.1 h2
      · exact he h2

theorem dictUpdate_cons (base : SettingsMap) (p : String × JVal)
    (o : SettingsMap) :
    dictUpdate base (p :: o) = dictUpdate (dictSet base p.1 p.2) o := rfl

theorem NodupKeys_dictUpdate (base o : SettingsMap) (h : NodupKeys base) :
    NodupKeys (dictUpdate base o) := by
  induction o generalizing base with
  | nil => exact h
  | cons p rest ih =>
    rw [dictUpdate_cons]
    exact ih _ (NodupKeys_dictSet _ _ _ h)

theorem dictUpdate_append (base o1 o2 : SettingsMap) :
    dictUpdate base (o1 ++ o2) = dictUpdate (dictUpdate base o1) o2 := by
  simp [dictUpdate, List.foldl_append]

theorem dictGet_dictUpdate (base o : SettingsMap) (k : String) :
    dictGet (dictUpdate base o) k = orO (lookupLast o k) (dictGet base k) := by
  induction o using List.reverseRecOn with
  | nil => rfl
  | append_singleton l p ih =>
    obtain ⟨k0, v⟩ := p
    rw [dictUpdate_append]
    have hstep : dictUpdate (dictUpdate base l) [(k0, v)] =
        dictSet (dictUpdate base l) k0 v := rfl
    have hrev : (l ++ [(k0, v)]).reverse = (k0, v) :: l.reverse := by
      simp
    rw [hstep, dictGet_dictSet]
    unfold lookupLast
    rw [hrev]
    by_cases h : k0 = k
    · simp [dictGet, h, orO]
    · rw [ih]
      simp [dictGet, h, lookupLast]

theorem lookupLast_eq_dictGet (o : SettingsMap) (k : String) (h : NodupKeys o) :
    lookupLast o k = dictGet o k := by
  induction o with
  | nil => rfl
  | cons p rest ih =>
    obtain ⟨k', v⟩ := p
    unfold NodupKeys at h
    simp only [List.map_cons, List.nodup_cons] at h
    have hrest := ih h.2
    unfold lookupLast at hrest ⊢
    simp only [List.reverse_cons, dictGet_append]
    by_cases he : k' = k
    · subst he
      have : dictGet rest k' = none :=
        dictGet_eq_none_of_not_mem_keys rest k' h.1
      rw [hrest, this]
      simp [dictGet, orO]
    · rw [hrest]
      simp [dictGet, he, orO_none_right]

/-! ## The ancestor walk -/

theorem parent_dir_abs (cwd cs : List String) :
    parent_dir cwd (.abs cs) = if cs = [] then .empty else .abs cs.dropLast := by
  cases cs <;> rfl

theorem ancestors_concat (l : List String) (a : String) :
    ancestors (l ++ [a]) = (l ++ [a]) :: ancestors l := by
  unfold ancestors
  rw [List.reverse_append]
  simp [ancestorsAux]

theorem ancestors_eq (cs : List String) :
    ancestors cs = cs :: (if cs = [] then [] else ancestors cs.dropLast) := by
  induction cs using List.reverseRecOn with
  | nil => rfl
  | append_singleton l a _ =>
    rw [ancestors_concat]
    simp

/-- `walkFrom` is the trace of the source's `while True` loop: the current
directory is processed, then the loop either stops (its parent is the empty
string) or continues from the parent. -/
theorem walkFrom_eq (cwd : List String) (d : UPath) :
    walkFrom cwd d =
      d :: (if parent_dir cwd d = .empty then []
            else walkFrom cwd (parent_dir cwd d)) := by
  cases d with
  | empty => simp [walkFrom, parent_dir]
  | abs cs =>
    rcases eq_or_ne cs [] with h | h
    · subst h
      simp [walkFrom, parent_dir, ancestors, ancestorsAux]
    · rw [parent_dir_abs, if_neg h]
      have hne : UPath.abs cs.dropLast ≠ .empty := by simp
      rw [if_neg hne]
      simp only [walkFrom]
      rw [ancestors_eq cs, if_neg h]
      simp

theorem parentIter_abs (cwd : List String) :
    ∀ cs : List String, parentIter cwd (cs.length + 1) (.abs cs) = .empty := by
  intro cs
  induction cs using List.reverseRecOn with
  | nil => rfl
  | append_singleton l a ih =>
    have hlen : (l ++ [a]).length = l.length + 1 := by simp
    rw [hlen]
    show parentIter cwd (l.length + 1) (parent_dir cwd (.abs (l ++ [a]))) = .empty
    rw [parent_dir_abs, if_neg (by simp)]
    have hdl : (l ++ [a]).dropLast = l := by simp
    rw [hdl]
    exact ih

/-! ## The filesystem and the loop body -/

theorem NodupKeys_fileMapP (fs : FS) (p : List String) (h : fsWellFormed fs) :
    NodupKeys (fileMapP fs p) := by
  induction fs with
  | nil => simp [fileMapP, fsStat, NodupKeys]
  | cons e rest ih =>
    obtain ⟨q, stt⟩ := e
    have h1 : fileStateWF stt := h (q, stt) (by simp)
    have h2 : fsWellFormed rest := fun e he => h e (by simp [he])
    unfold fileMapP fsStat
    by_cases hq : q = p
    · simp only [if_pos hq]
      cases stt with
      | valid m => exact h1
      | absent => simp [NodupKeys]
      | unreadable => simp [NodupKeys]
      | invalid => simp [NodupKeys]
    · simp only [if_neg hq]
      exact ih h2

theorem file_settings_ok (fs : FS) (p : List String) (m : SettingsMap)
    (h : file_settings fs p = .ok m) : m = fileMapP fs p := by
  unfold file_settings at h
  unfold fileMapP
  cases hst : fsStat fs p <;> rw [hst] at h <;> cases h <;> rfl

theorem processDir_ok (fs : FS) (sn : String) (d : UPath) (s s' : SettingsMap)
    (hwf : fsWellFormed fs) (hs : NodupKeys s)
    (h : processDir fs sn d s = .ok s') :
    NodupKeys s' ∧
      ∀ k, dictGet s' k = orO (dictGet s k) (dirLayerGet fs sn d k) := by
  unfold processDir at h
  cases h1 : file_settings fs (joinFile d (sn ++ ".sublime-settings")) with
  | error e => rw [h1] at h; cases h
  | ok m1 =>
    rw [h1] at h
    cases h2 : file_settings fs (joinFile d ("Preferences.sublime-settings")) with
    | error e => rw [h2] at h; cases h
    | ok m2 =>
      rw [h2] at h
      obtain rfl := file_settings_ok fs _ m1 h1
      obtain rfl := file_settings_ok fs _ m2 h2
      have hs' : s' = dictUpdate (fileMapP fs (joinFile d ("Preferences.sublime-settings")))
          (dictUpdate (fileMapP fs (joinFile d (sn ++ ".sublime-settings"))) s) := by
        cases h; rfl
      have hn1 : NodupKeys (fileMapP fs (joinFile d (sn ++ ".sublime-settings"))) :=
        NodupKeys_fileMapP fs _ hwf
      have hn2 : NodupKeys (fileMapP fs (joinFile d ("Preferences.sublime-settings"))) :=
        NodupKeys_fileMapP fs _ hwf
      constructor
      · rw [hs']
        exact NodupKeys_dictUpdate _ _ hn2
      · intro k
        rw [hs', dictGet_dictUpdate,
            lookupLast_eq_dictGet _ _ (NodupKeys_dictUpdate _ _ hn1),
            dictGet_dictUpdate, lookupLast_eq_dictGet _ _ hs, orO_assoc]
        rfl

theorem viewLoop_ok (fs : FS) (sn : String) (dirs : List UPath) :
    ∀ s r : SettingsMap, fsWellFormed fs → NodupKeys s →
      viewLoop fs sn dirs s = .ok r →
      ∀ k, dictGet r k = orO (dictGet s k) (layersGet fs sn dirs k) := by
  induction dirs with
  | nil =>
    intro s r _ _ h k
    cases h
    simp [layersGet, orO_none_right]
  | cons d rest ih =>
    intro s r hwf hs h
    unfold viewLoop at h
    cases hp : processDir fs sn d s with
    | error e => rw [hp] at h; cases h
    | ok s1 =>
      rw [hp] at h
      obtain ⟨hn1, hget⟩ := processDir_ok fs sn d s s1 hwf hs hp
      intro k
      have hr : dictGet r k = orO (dictGet s1 k) (layersGet fs sn rest k) :=
        ih s1 r hwf hn1 h k
      rw [hr, hget k, orO_assoc]
      rfl

/-! ## The registry -/

theorem mem_of_mem_removeFirst (l : List Nat) (a b : Nat)
    (h : b ∈ removeFirst l a) : b ∈ l := by
  induction l with
  | nil => cases h
  | cons x xs ih =>
    unfold removeFirst at h
    by_cases hx : x = a
    · rw [if_pos hx] at h
      exact List.mem_cons_of_mem x h
    · rw [if_neg hx] at h
      rcases List.mem_cons.mp h with h | h
      · exact h ▸ List.mem_cons_self x xs
      · exact List.mem_cons_of_mem x (ih h)

theorem removeFirst_of_not_mem (l : List Nat) (a : Nat) (h : a ∉ l) :
    removeFirst l a = l := by
  induction l with
  | nil => rfl
  | cons x xs ih =>
    have hx : x ≠ a := fun he => h (he ▸ List.mem_cons_self x xs)
    have h2 : a ∉ xs := fun hm => h (List.mem_cons_of_mem x hm)
    unfold removeFirst
    rw [if_neg hx, ih h2]

theorem not_mem_removeFirst_of_nodup (l : List Nat) (a : Nat) (h : l.Nodup) :
    a ∉ removeFirst l a := by
  induction l with
  | nil => simp [removeFirst]
  | cons x xs ih =>
    rw [List.nodup_cons] at h
    unfold removeFirst
    by_cases hx : x = a
    · rw [if_pos hx]
      exact fun hm => h.1 (hx ▸ hm)
    · rw [if_neg hx]
      intro hm
      rcases List.mem_cons.mp hm with h2 | h2
      · exact hx h2.symm
      · exact ih h.2 h2

theorem Nodup_removeFirst (l : List Nat) (a : Nat) (h : l.Nodup) :
    (removeFirst l a).Nodup := by
  induction l with
  | nil => simp [removeFirst]
  | cons x xs ih =>
    rw [List.nodup_cons] at h
    unfold removeFirst
    by_cases hx : x = a
    · rw [if_pos hx]
      exact h.2
    · rw [if_neg hx]
      rw [List.nodup_cons]
      exact ⟨fun hm => h.1 (mem_of_mem_removeFirst xs a x hm), ih h.2⟩

theorem nodup_append_singleton (l : List Nat) (a : Nat) (h : l.Nodup)
    (ha : a ∉ l) : (l ++ [a]).Nodup := by
  rw [List.nodup_append]
  refine ⟨h, List.nodup_singleton a, ?_⟩
  intro x hx hx2
  rw [List.mem_singleton] at hx2
  exact ha (hx2 ▸ hx)

/-- Inversion of a successful `apply_settings` call: either the view was
already configured and nothing changed, or it was not yet configured,
`view_settings` succeeded, the resolved entries were written to the view's
store and the id was appended to the registry. -/
theorem apply_ok_cases (fs : FS) (cwd : List String) (st : AppState) (v : View)
    (st' : AppState) (h : apply_settings fs cwd st v = .ok st') :
    (v.id ∈ st.configured_views ∧ st' = st) ∨
    (v.id ∉ st.configured_views ∧ ∃ s, view_settings fs cwd v = .ok s ∧
      st' = { configured_views := st.configured_views ++ [v.id],
              stores := fun i =>
                if i = v.id then writeItems (st.stores i) s else st.stores i }) := by
  unfold apply_settings at h
  by_cases hm : v.id ∈ st.configured_views
  · rw [if_pos hm] at h
    cases h
    exact Or.inl ⟨hm, rfl⟩
  · rw [if_neg hm] at h
    cases hv : view_settings fs cwd v with
    | error e => rw [hv] at h; cases h
    | ok s =>
      rw [hv] at h
      cases h
      exact Or.inr ⟨hm, s, rfl, rfl⟩

theorem mem_configured_of_apply_ok (fs : FS) (cwd : List String) (st : AppState)
    (v : View) (st' : AppState) (h : apply_settings fs cwd st v = .ok st') :
    v.id ∈ st'.configured_views := by
  rcases apply_ok_cases fs cwd st v st' h with ⟨hm, rfl⟩ | ⟨_, s, _, rfl⟩
  · exact hm
  · simp

theorem nodup_of_reachable (st : AppState) (h : Reachable st) :
    st.configured_views.Nodup := by
  induction h with
  | init => simp
  | applyEvent fs cwd v st st' _ hok ih =>
    rcases apply_ok_cases fs cwd st v st' hok with ⟨_, rfl⟩ | ⟨hnm, s, _, rfl⟩
    · exact ih
    · exact nodup_append_singleton _ _ ih hnm
  | closeEvent st i _ ih => exact Nodup_removeFirst _ _ ih

/-! ## Claims -/

/-- C1: the resolved mapping gives closer-wins precedence across directories:
for every key, the value `view_settings` resolves is the value of the first
(nearest-first) directory layer that defines the key — so a key defined in
several ancestor directories gets the value of the nearest one, and a key
defined only in a farther directory is still included. -/
theorem view_settings_closer_wins (fs : FS) (cwd : List String) (v : View)
    (f : List String) (r : SettingsMap) (k : String)
    (hwf : fsWellFormed fs) (hf : v.fileName = some f)
    (hok : view_settings fs cwd v = .ok r) :
    dictGet r k =
      layersGet fs (synNameOf v) (walkFrom cwd (parent_dir cwd (.abs f))) k := by
  unfold view_settings at hok
  rw [hf] at hok
  exact viewLoop_ok fs (synNameOf v) (walkFrom cwd (parent_dir cwd (.abs f)))
    [] r hwf (by simp [NodupKeys]) hok k

/-- C1 witness: directories `/d1/d0` (nearest), `/d1`, `/` (root) define
`{a:1}`, `{a:2, b:2}`, `{b:3, c:3}`; the resolved mapping is
`{a:1, b:2, c:3}` and agrees with the nearest-first layer lookup. -/
theorem view_settings_closer_wins_witness :
    view_settings
      [( ["d1", "d0", "Preferences.sublime-settings"], FileState.valid [("a", JVal.num 1)]),
       ( ["d1", "Preferences.sublime-settings"], FileState.valid [("a", JVal.num 2), ("b", JVal.num 2)]),
       ( ["Preferences.sublime-settings"], FileState.valid [("b", JVal.num 3), ("c", JVal.num 3)])]
      (["home"]) ⟨1, ("Packages/Python/Python.sublime-syntax"), some (["d1", "d0", "file.py"])⟩
      = .ok ([("b", JVal.num 2), ("c", JVal.num 3), ("a", JVal.num 1)])
    ∧ dictGet ([("b", JVal.num 2), ("c", JVal.num 3), ("a", JVal.num 1)]) ("a") = some (JVal.num 1)
    ∧ dictGet ([("b", JVal.num 2), ("c", JVal.num 3), ("a", JVal.num 1)]) ("b") = some (JVal.num 2)
    ∧ dictGet ([("b", JVal.num 2), ("c", JVal.num 3), ("a", JVal.num 1)]) ("c") = some (JVal.num 3)
    ∧ dictGet ([("b", JVal.num 2), ("c", JVal.num 3), ("a", JVal.num 1)]) ("a") =
        layersGet
          [( ["d1", "d0", "Preferences.sublime-settings"], FileState.valid [("a", JVal.num 1)]),
           ( ["d1", "Preferences.sublime-settings"], FileState.valid [("a", JVal.num 2), ("b", JVal.num 2)]),
           ( ["Preferences.sublime-settings"], FileState.valid [("b", JVal.num 3), ("c", JVal.num 3)])]
          (synNameOf ⟨1, ("Packages/Python/Python.sublime-syntax"), some (["d1", "d0", "file.py"])⟩)
          (walkFrom (["home"]) (parent_dir (["home"]) (.abs (["d1", "d0", "file.py"])))) ("a") :=
  ⟨rfl, rfl, rfl, rfl,
   view_settings_closer_wins _ _ _ _ _ _ (by decide) rfl rfl⟩

/-- C2: within a single directory the syntax-specific candidate takes
precedence over the generic `Preferences` candidate: the value the directory
step contributes for a key not already accumulated is the syntax file's value
when that file defines the key, the generic file's value otherwise. -/
theorem overlay_precedence_within_dir (fs : FS) (sn : String) (d : UPath)
    (s s' : SettingsMap) (k : String)
    (hwf : fsWellFormed fs) (hs : NodupKeys s)
    (h : processDir fs sn d s = .ok s') :
    dictGet s' k =
      orO (dictGet s k)
        (orO (dictGet (fileMapP fs (joinFile d (sn ++ ".sublime-settings"))) k)
             (dictGet (fileMapP fs (joinFile d ("Preferences.sublime-settings"))) k)) :=
  (processDir_ok fs sn d s s' hwf hs h).2 k

/-- C2 witness: in one directory `Python.sublime-settings` defines
`{tab_size:4}` and `Preferences.sublime-settings` defines
`{tab_size:2, font_size:10}`; the combined layer is
`{tab_size:4, font_size:10}`. -/
theorem overlay_precedence_within_dir_witness :
    processDir
      [( ["p", "Python.sublime-settings"], FileState.valid [("tab_size", JVal.num 4)]),
       ( ["p", "Preferences.sublime-settings"],
         FileState.valid [("tab_size", JVal.num 2), ("font_size", JVal.num 10)])]
      ("Python") (.abs (["p"])) []
      = .ok ([("tab_size", JVal.num 4), ("font_size", JVal.num 10)])
    ∧ dictGet ([("tab_size", JVal.num 4), ("font_size", JVal.num 10)]) ("font_size") =
        some (JVal.num 10)
    ∧ dictGet ([("tab_size", JVal.num 4), ("font_size", JVal.num 10)]) ("tab_size") =
        orO (dictGet ([]) ("tab_size"))
          (orO (dictGet ([("tab_size", JVal.num 4)]) ("tab_size"))
               (dictGet ([("tab_size", JVal.num 2), ("font_size", JVal.num 10)]) ("tab_size"))) :=
  ⟨rfl, rfl,
   overlay_precedence_within_dir
     [( ["p", "Python.sublime-settings"], FileState.valid [("tab_size", JVal.num 4)]),
      ( ["p", "Preferences.sublime-settings"],
        FileState.valid [("tab_size", JVal.num 2), ("font_size", JVal.num 10)])]
     ("Python") (.abs (["p"])) []
     ([("tab_size", JVal.num 4), ("font_size", JVal.num 10)]) ("tab_size")
     (by decide) (by decide) rfl⟩

/-- C3: the claim (and the docstring of `file_settings`: an empty dict is
returned if "an error occurs") promises that loading never propagates an
error; the code violates it. In `file_settings` the `try` block begins only
after `open()` has succeeded, so an `OSError` raised by `open()` on an
existing but unreadable file (for example `PermissionError` on a mode-`000`
file) propagates out of `file_settings`, aborts the whole resolve before the
remaining ancestor directories are consulted, and propagates out of
`apply_settings`. This theorem evaluates the code at such a failing input. -/
theorem unreadable_file_aborts_resolve :
    file_settings [( ["proj", "Preferences.sublime-settings"], FileState.unreadable)]
      (["proj", "Preferences.sublime-settings"]) = .error .ioError
    ∧ view_settings [( ["proj", "Preferences.sublime-settings"], FileState.unreadable)]
        (["home"]) ⟨2, ("Packages/Text/Plain text.tmLanguage"), some (["proj", "main.txt"])⟩
      = .error .ioError :=
  ⟨rfl, rfl⟩

/-- C4: `apply_settings` is idempotent per view lifetime: after one
successful call, a second call with no `on_close` in between returns the
state unchanged — it performs no settings-store writes and no registry
change. -/
theorem apply_settings_idempotent (fs : FS) (cwd : List String)
    (st st' : AppState) (v : View)
    (h : apply_settings fs cwd st v = .ok st') :
    apply_settings fs cwd st' v = .ok st' := by
  have hm := mem_configured_of_apply_ok fs cwd st v st' h
  unfold apply_settings
  rw [if_pos hm]

/-- C4 witness: a first `apply_settings` on a fresh state registers view 3;
the second call returns the resulting state unchanged. -/
theorem apply_settings_idempotent_witness :
    apply_settings ([]) ([])
      { configured_views := [3], stores := fun i => if i = 3 then [] else [] }
      ⟨3, ("Packages/Python/Python.sublime-syntax"), some (["a.py"])⟩
      = .ok { configured_views := [3], stores := fun i => if i = 3 then [] else [] } :=
  apply_settings_idempotent ([]) ([])
    { configured_views := [], stores := fun _ => [] } _ _ rfl

/-- C5 counterexample: the claim says a target with an absent file path is
applied without resolution, without raising, and is still marked applied.
The code has no such guard: for an unregistered view whose `file_name()` is
`None`, `apply_settings` calls `view_settings`, where
`os.path.join(None, os.pardir)` raises a `TypeError`; the registry is not
updated. -/
theorem apply_settings_no_file_raises_cex :
    apply_settings ([]) ([]) { configured_views := [], stores := fun _ => [] }
      ⟨7, ("Packages/Python/Python.sublime-syntax"), none⟩ = .error .typeError :=
  rfl

/-- C5 amended: for every target with an absent file path whose identity is
not yet registered, `apply_settings` raises a `TypeError` from the path
computation; no settings-store write happens and the identity is not added
to the registry (the state is unchanged by the raised exception). -/
theorem apply_settings_no_file_raises (fs : FS) (cwd : List String)
    (st : AppState) (v : View) (hf : v.fileName = none)
    (hm : v.id ∉ st.configured_views) :
    apply_settings fs cwd st v = .error .typeError := by
  have hv : view_settings fs cwd v = .error .typeError := by
    unfold view_settings
    rw [hf]
  unfold apply_settings
  rw [if_neg hm, hv]

/-- C5 amended witness. -/
theorem apply_settings_no_file_raises_witness :
    apply_settings ([]) ([]) { configured_views := [9], stores := fun _ => [] }
      ⟨8, ("Packages/Python/Python.sublime-syntax"), none⟩ = .error .typeError :=
  apply_settings_no_file_raises ([]) ([])
    { configured_views := [9], stores := fun _ => [] }
    ⟨8, ("Packages/Python/Python.sublime-syntax"), none⟩ rfl (by decide)

/-- C6 counterexample: the claim fixes the candidate names as bit-exact
`<SyntaxBaseName>.settings` and `Preferences.settings`; the code probes
`.sublime-settings` names. The candidate list differs from the spec's list,
and a filesystem that only carries the spec-named files resolves to `{}` —
those files are never probed. -/
theorem settings_file_names_cex :
    settings_files (.abs (["home"])) ("Python") ≠
      settings_files_spec (.abs (["home"])) ("Python")
    ∧ view_settings
        [( ["proj", "Python.settings"], FileState.valid [("a", JVal.num 1)]),
         ( ["proj", "Preferences.settings"], FileState.valid [("b", JVal.num 2)])]
        (["home"]) ⟨4, ("Packages/Python/Python.sublime-syntax"), some (["proj", "x.py"])⟩
      = .ok ([]) :=
  ⟨by decide, rfl⟩

/-- C6 amended: the two candidate paths probed per consulted directory are
exactly `<directory>/<SyntaxBaseName>.sublime-settings` and
`<directory>/Preferences.sublime-settings`, directly inside the directory:
the directory step of the resolve depends on the filesystem only at the two
paths of `settings_files`. -/
theorem settings_files_probed (fs fs' : FS) (sn : String) (d : UPath)
    (s : SettingsMap)
    (h : ∀ p ∈ settings_files d sn, fsStat fs p = fsStat fs' p) :
    processDir fs sn d s = processDir fs' sn d s := by
  have h1 := h (joinFile d (sn ++ ".sublime-settings")) (by simp [settings_files])
  have h2 := h (joinFile d ("Preferences.sublime-settings")) (by simp [settings_files])
  unfold processDir file_settings
  rw [h1, h2]

/-- C6 amended witness: two filesystems that agree on the two candidate paths
of a directory (here: both have them absent) make the directory step agree,
whatever else they contain. -/
theorem settings_files_probed_witness :
    processDir [( ["other"], FileState.invalid)] ("Python") (.abs (["q"])) [] =
      processDir [] ("Python") (.abs (["q"])) [] :=
  settings_files_probed _ _ _ _ _ (by
    intro p hp
    rcases List.mem_cons.mp hp with rfl | hp2
    · rfl
    · rcases List.mem_cons.mp hp2 with rfl | hp3
      · rfl
      · cases hp3)

/-- C7 counterexample: the claim says that when the computed parent directory
is empty (the target is itself the root), resolve returns an empty mapping
immediately. The loop is do-while: the body still runs with the empty
directory string, so the root-level candidate files are probed (the string
concatenation yields `/Preferences.sublime-settings`), and the walk then
continues from the parent of the working directory. With `{a:1}` in the
root's `Preferences.sublime-settings`, resolve returns `{a:1}`, not `{}`. -/
theorem resolve_root_file_cex :
    view_settings [( ["Preferences.sublime-settings"], FileState.valid [("a", JVal.num 1)])]
      (["home", "user"]) ⟨5, ("Packages/Python/Python.sublime-syntax"), some ([])⟩
      = .ok ([("a", JVal.num 1)])
    ∧ view_settings [( ["Preferences.sublime-settings"], FileState.valid [("a", JVal.num 1)])]
        (["home", "user"]) ⟨5, ("Packages/Python/Python.sublime-syntax"), some ([])⟩
      ≠ .ok ([]) :=
  ⟨rfl, by
    intro h
    have h2 := Except.ok.inj h
    have h3 : (some (JVal.num 1) : Option JVal) = (none : Option JVal) :=
      congrArg (fun m => dictGet m ("a")) h2
    cases h3⟩

/-- C7 amended: for a target that is itself the filesystem root, resolve does
not return immediately: the loop body runs for the empty directory string —
probing the root-level candidate files — and then walks the ancestors of the
working directory's parent; the result is the nearest-first merge over
exactly that chain of layers. -/
theorem resolve_root_file_layers (fs : FS) (cwd : List String) (v : View)
    (r : SettingsMap) (k : String)
    (hwf : fsWellFormed fs) (hf : v.fileName = some ([]))
    (hok : view_settings fs cwd v = .ok r) :
    dictGet r k =
      layersGet fs (synNameOf v)
        (UPath.empty :: (ancestors cwd.dropLast).map .abs) k := by
  unfold view_settings at hok
  rw [hf] at hok
  exact viewLoop_ok fs (synNameOf v) (walkFrom cwd (parent_dir cwd (.abs [])))
    [] r hwf (by simp [NodupKeys]) hok k

/-- C7 amended witness. -/
theorem resolve_root_file_layers_witness :
    dictGet ([("a", JVal.num 1)]) ("a") =
      layersGet [( ["Preferences.sublime-settings"], FileState.valid [("a", JVal.num 1)])]
        (synNameOf ⟨5, ("Packages/Python/Python.sublime-syntax"), some ([])⟩)
        (UPath.empty :: (ancestors ((["home", "user"]).dropLast)).map .abs) ("a") :=
  resolve_root_file_layers _ _ _ _ ("a") (by decide) rfl rfl

/-- C8: `on_close` (release) is a silent no-op when the identity is absent,
removes the identity completely when present (reachable registries hold an
identity at most once), and a subsequent `apply_settings` re-runs the full
resolution and re-applies the resolved settings to the view's store. -/
theorem release_then_apply (fs : FS) (cwd : List String) (st : AppState)
    (v : View) (r : SettingsMap)
    (hre : Reachable st) (hok : view_settings fs cwd v = .ok r) :
    (v.id ∉ st.configured_views → on_close st v.id = st)
    ∧ v.id ∉ (on_close st v.id).configured_views
    ∧ apply_settings fs cwd (on_close st v.id) v =
        .ok { configured_views := (on_close st v.id).configured_views ++ [v.id],
              stores := fun i =>
                if i = v.id then writeItems (st.stores i) r else st.stores i } := by
  have hnd := nodup_of_reachable st hre
  have hnm : v.id ∉ (on_close st v.id).configured_views :=
    not_mem_removeFirst_of_nodup _ _ hnd
  refine ⟨fun h => ?_, hnm, ?_⟩
  · unfold on_close
    rw [removeFirst_of_not_mem _ _ h]
  · unfold apply_settings
    rw [if_neg hnm, hok]
    rfl

/-- C8 witness: on the initial reachable state, releasing view 6 leaves it
unregistered, so the next `apply_settings` resolves again. -/
theorem release_then_apply_witness :
    (6 : Nat) ∉ (on_close { configured_views := [], stores := fun _ => [] } 6).configured_views :=
  (release_then_apply ([]) ([]) { configured_views := [], stores := fun _ => [] }
    ⟨6, ("Packages/Python/Python.sublime-syntax"), some (["a.py"])⟩ ([])
    Reachable.init rfl).2.1

/-- C9: the ancestor walk terminates for every starting directory — iterating
`parent_dir` reaches the empty string after finitely many steps — and the
walk from a root directory visits exactly one directory, the root itself. -/
theorem walk_terminates (cwd : List String) :
    (∀ d : UPath, ∃ n, parentIter cwd n d = .empty)
    ∧ walkFrom cwd (.abs []) = [.abs []] := by
  refine ⟨fun d => ?_, rfl⟩
  cases d with
  | abs cs => exact ⟨cs.length + 1, parentIter_abs cwd cs⟩
  | empty => exact ⟨cwd.dropLast.length + 2, parentIter_abs cwd cwd.dropLast⟩

/-- C10: reachable registries never hold duplicate identities —
`apply_settings` appends an id only after checking it is absent, and
`on_close` removes at most one occurrence — so a single release fully
unregisters any identity. -/
theorem registry_no_duplicates (st : AppState) (h : Reachable st) :
    st.configured_views.Nodup
    ∧ ∀ i : Nat, i ∉ (on_close st i).configured_views := by
  have hnd := nodup_of_reachable st h
  exact ⟨hnd, fun i => not_mem_removeFirst_of_nodup _ _ hnd⟩

/-- C10 witness: the invariant instantiated at the initial state. -/
theorem registry_no_duplicates_witness :
    ({ configured_views := [], stores := fun _ => [] } : AppState).configured_views.Nodup
    ∧ (0 : Nat) ∉ (on_close { configured_views := [], stores := fun _ => [] } 0).configured_views :=
  ⟨(registry_no_duplicates _ Reachable.init).1,
   (registry_no_duplicates _ Reachable.init).2 0⟩

end SublimeUberSettings
